import Mathlib

/-!
Verification development for the Daily Consolidation & Scoring Engine and the
chat front end of this repository.  The engine (Parser, Validator, Aggregator,
Player Registry, Scoring Engine, Consolidator) is present in the repository
only as its design narrative; its operational definitions below are therefore
modelled from the spec (sections 3 to 7).  The chat-interface definitions are
a shallow embedding of src/frontend/src/components/chat/ChatInterface.jsx.
Calendar dates and timestamps are modelled as naturals; identity strings
(names) are modelled as opaque natural-number codes.
-/

/-- Modelled from the spec: the two intra-day draw sessions of a cycle. -/
inductive Session where
  | morning
  | evening
deriving DecidableEq, Repr

/-- Modelled from the spec: one raw ticket record (section 3, TicketRow).
Customer identity fields are collapsed to one opaque code. -/
structure TicketRow where
  names : Nat
  mobile : Nat
  consent : Bool
  first_seen : Nat
  ticket_count : Nat
  session : Session
  cycle_date : Nat
deriving DecidableEq, Repr

/-- Modelled from the spec: per-player daily purchase fact produced by the
Aggregator (section 4.3).  `first_seen` carries the most recent timestamp for
`created_at` of newly created players. -/
structure DailyFact where
  ticket_count : Nat
  purchased : Bool
  latest_names : Nat
  latest_consent : Bool
  first_seen : Nat
deriving DecidableEq, Repr

/-- Modelled from the spec: durable per-player state (section 3, Player). -/
structure Player where
  names : Nat
  consent : Bool
  created_at : Nat
  e_score : Nat
  window : List Bool
  last_processed_cycle : Option Nat
deriving DecidableEq, Repr

/-- Modelled from the spec: error taxonomy of section 7 restricted to the
mutation-affecting errors the claims mention. -/
inductive CycleError where
  | duplicateCycleError
  | outOfOrderCycleError
deriving DecidableEq, Repr

/-- Modelled from the spec: result of `submit_cycle` (section 6),
`Consolidated(snapshot_version)` or `Rejected(error)`. -/
inductive SubmitResult where
  | consolidated (version : Nat)
  | rejected (e : CycleError)
deriving DecidableEq, Repr

/-- Modelled from the spec: the Player Registry as a keyed store, one entry
per normalized mobile number (section 4.4). -/
def Registry : Type := Nat → Option Player

/-- Modelled from the spec: engine state, the Player Registry together with
the cycle ledger recording `(date, status, partial_flag)` (section 6); a
ledger entry `some b` means the date is consolidated with that flag. -/
structure EngineState where
  registry : Registry
  ledger : Nat → Option Bool

/-- Modelled from the spec: the rows of one cycle attributed to one mobile. -/
def rowsFor (rows : List TicketRow) (m : Nat) : List TicketRow :=
  rows.filter (fun r => r.mobile == m)

/-- Modelled from the spec: ticket quantities attributed to a mobile in one
cycle, summed across both sessions (commutative, associative sum). -/
def ticketSum (rows : List TicketRow) (m : Nat) : Nat :=
  ((rowsFor rows m).map (fun r => r.ticket_count)).sum

/-- Modelled from the spec: the most recent timestamp among a mobile's rows;
recency of last-write-wins fields is determined by the first-seen timestamp. -/
def latestStamp (rows : List TicketRow) (m : Nat) : Nat :=
  ((rowsFor rows m).map (fun r => r.first_seen)).foldr max 0

/-- Modelled from the spec: identity payload of a row, names and consent
packed injectively so the order-independent reduction can take a maximum. -/
def payloadOf (r : TicketRow) : Nat :=
  2 * r.names + cond r.consent 1 0

/-- Modelled from the spec: payload of the most recent row of a mobile; ties
on the timestamp are resolved by the packed payload order, keeping the
reduction independent of row arrival order as section 4.3 states. -/
def latestPayload (rows : List TicketRow) (m : Nat) : Nat :=
  (((rowsFor rows m).filter
      (fun r => r.first_seen == latestStamp rows m)).map payloadOf).foldr max 0

/-- Modelled from the spec: the daily fact of one mobile (section 4.3);
`purchased` is `ticket_count > 0`, names and consent are last-write-wins. -/
def aggregateFact (rows : List TicketRow) (m : Nat) : DailyFact :=
  { ticket_count := ticketSum rows m
    purchased := ticketSum rows m != 0
    latest_names := latestPayload rows m / 2
    latest_consent := latestPayload rows m % 2 == 1
    first_seen := latestStamp rows m }

/-- Modelled from the spec: the Aggregator output, a mapping from mobile
number to daily fact, defined for exactly the mobiles with at least one row. -/
def aggregate (rows : List TicketRow) (m : Nat) : Option DailyFact :=
  if rowsFor rows m = [] then none else some (aggregateFact rows m)

/-- Modelled from the spec: the mobiles affected by one cycle's rows. -/
def mobilesOf (rows : List TicketRow) : List Nat :=
  (rows.map (fun r => r.mobile)).dedup

/-- Modelled from the spec: append a purchase flag to the rolling window,
evicting the oldest flag when the window already holds 4 (FIFO eviction). -/
def pushWindow (w : List Bool) (b : Bool) : List Bool :=
  if w.length < 4 then w ++ [b] else w.drop 1 ++ [b]

/-- Modelled from the spec: `gear = len(window) - count(window, true)`. -/
def gear (w : List Bool) : Nat :=
  w.length - w.count true

/-- Modelled from the spec: segment letter from the window (section 4.5); for
a full window the count of true flags maps 4,3,2,1,0 to A,B,C,D,E, and for a
shorter window the same mapping is applied proportionally scaled to the
window length (the stated early-window policy). -/
def segmentOf (w : List Bool) : Char :=
  let q := if w.length = 0 then 0 else 4 * w.count true / w.length
  if q = 4 then 'A'
  else if q = 3 then 'B'
  else if q = 2 then 'C'
  else if q = 1 then 'D'
  else 'E'

/-- Modelled from the spec: whether a cycle date is strictly after a player's
last processed cycle; a player with no processed cycle accepts any date. -/
def strictlyAfter (last : Option Nat) (d : Nat) : Bool :=
  match last with
  | none => true
  | some c => decide (c < d)

/-- Modelled from the spec: `apply_cycle_fact` (section 4.4): fails with
`OutOfOrderCycleError` if the cycle date is not strictly after
`last_processed_cycle`; otherwise appends `fact.purchased` to the window,
adds `fact.ticket_count` to `e_score`, overwrites names and consent
(last-write-wins), and sets `last_processed_cycle` to the cycle date. -/
def apply_cycle_fact (p : Player) (d : Nat) (f : DailyFact) :
    Except CycleError Player :=
  if strictlyAfter p.last_processed_cycle d then
    .ok { names := f.latest_names
          consent := f.latest_consent
          created_at := p.created_at
          e_score := p.e_score + f.ticket_count
          window := pushWindow p.window f.purchased
          last_processed_cycle := some d }
  else .error .outOfOrderCycleError

/-- Modelled from the spec: `get_or_create` (section 4.4): the existing
player, or a fresh one with `e_score = 0`, empty window, and `created_at`
set to the first-seen timestamp carried by the fact. -/
def get_or_create (reg : Registry) (m : Nat) (f : DailyFact) : Player :=
  match reg m with
  | some p => p
  | none =>
    { names := f.latest_names
      consent := f.latest_consent
      created_at := f.first_seen
      e_score := 0
      window := []
      last_processed_cycle := none }

/-- Modelled from the spec: point update of the registry at one mobile. -/
def updateReg (reg : Registry) (m : Nat) (p : Player) : Registry :=
  fun m' => if m' = m then some p else reg m'

/-- Modelled from the spec: commit phase of the Consolidator (section 4.6,
step 3): upsert and `apply_cycle_fact` for every affected player; any
failure aborts the whole cycle and no updated registry is produced. -/
def commitAll (reg : Registry) (d : Nat) (facts : List (Nat × DailyFact)) :
    Except CycleError Registry :=
  match facts with
  | [] => .ok reg
  | (m, f) :: rest =>
    match apply_cycle_fact (get_or_create reg m f) d f with
    | .error e => .error e
    | .ok p => commitAll (updateReg reg m p) d rest

/-- Modelled from the spec: the per-mobile facts of one cycle's rows. -/
def factsOf (rows : List TicketRow) : List (Nat × DailyFact) :=
  (mobilesOf rows).map (fun m => (m, aggregateFact rows m))

/-- Modelled from the spec: `submit_cycle` (sections 4.6, 6, 7).  The
duplicate-cycle guard rejects an already consolidated date with no mutation;
a cycle with an empty session is flagged in its ledger metadata but still
processed; the commit is all-or-nothing, so a rejected cycle returns the
state unchanged, and a consolidated cycle installs the updated registry and
marks the date consolidated. -/
def submit_cycle (st : EngineState) (d : Nat)
    (morning evening : List TicketRow) : SubmitResult × EngineState :=
  if (st.ledger d).isSome then (.rejected .duplicateCycleError, st)
  else
    let rows := morning ++ evening
    let flag := morning.isEmpty || evening.isEmpty
    match commitAll st.registry d (factsOf rows) with
    | .error e => (.rejected e, st)
    | .ok reg' =>
      (.consolidated d,
       { registry := reg'
         ledger := fun d' => if d' = d then some flag else st.ledger d' })

/-- Modelled from the spec: the engine before any cycle is processed. -/
def emptyState : EngineState :=
  { registry := fun _ => none, ledger := fun _ => none }

/-- Modelled from the spec: states reachable from the empty engine by a
sequence of `submit_cycle` calls. -/
inductive Reachable : EngineState → Prop where
  | init : Reachable emptyState
  | step (st : EngineState) (d : Nat) (morning evening : List TicketRow) :
      Reachable st → Reachable (submit_cycle st d morning evening).2

/-- Modelled from the spec: a player undergoing a sequence of cycle facts,
one `apply_cycle_fact` per processed cycle. -/
def applyAll (p : Player) (l : List (Nat × DailyFact)) :
    Except CycleError Player :=
  match l with
  | [] => .ok p
  | (d, f) :: rest =>
    match apply_cycle_fact p d f with
    | .error e => .error e
    | .ok p' => applyAll p' rest

/-- Kind of a chat message in ChatInterface.jsx: the `type` field on the
message objects (user, ai, or error). -/
inductive MessageType where
  | user
  | ai
  | error
deriving DecidableEq, Repr

/-- One entry of the `messages` state array of ChatInterface.jsx; content is
modelled as a list of characters. -/
structure ChatMessage where
  type : MessageType
  content : List Char
deriving DecidableEq, Repr

/-- The component state of ChatInterface.jsx that handleSendMessage reads and
writes: `messages`, `inputMessage`, `isLoading`. -/
structure ChatState where
  messages : List ChatMessage
  inputMessage : List Char
  isLoading : Bool
deriving DecidableEq, Repr

/-- Embedding of the JavaScript `String.prototype.trim`: remove leading and
trailing whitespace characters. -/
def jsTrim (s : List Char) : List Char :=
  ((s.dropWhile Char.isWhitespace).reverse.dropWhile Char.isWhitespace).reverse

/-- The fixed error bubble text of ChatInterface.jsx. -/
def chatErrorText : List Char :=
  String.toList
    "Sorry, there was an error processing your request. Please try again."

/-- Outcome of the `sendChatMessage` call awaited by handleSendMessage:
either the AI response text or a thrown error. -/
def ChatServiceResult : Type := Except Unit (List Char)

/-- Embedding of handleSendMessage from ChatInterface.jsx.  The returned
boolean records whether the chat service was called.  An input whose trim is
empty returns at once; otherwise the user message is appended, the service is
called, and on success the AI message is appended and the input cleared,
while on failure one error message is appended and the input left alone; the
`finally` block ends with `isLoading = false` on both paths. -/
def handleSendMessage (st : ChatState) (svc : ChatServiceResult) :
    ChatState × Bool :=
  if jsTrim st.inputMessage = [] then (st, false)
  else
    let afterUser := st.messages ++ [⟨.user, st.inputMessage⟩]
    match svc with
    | .ok resp =>
      ({ messages := afterUser ++ [⟨.ai, resp⟩]
         inputMessage := []
         isLoading := false }, true)
    | .error _ =>
      ({ messages := afterUser ++ [⟨.error, chatErrorText⟩]
         inputMessage := st.inputMessage
         isLoading := false }, true)

/-- Claim C2: `segmentOf` is a deterministic, total function of the count of
true flags in the window: for every full (length-4) window with
`p = count(window, true)`, the segment is A when p is 4, B when p is 3,
C when p is 2, D when p is 1, and E when p is 0. -/
theorem c2_segment_mapping (w : List Bool) (h : w.length = 4) :
    segmentOf w =
      if w.count true = 4 then 'A'
      else if w.count true = 3 then 'B'
      else if w.count true = 2 then 'C'
      else if w.count true = 1 then 'D'
      else 'E' := by
  rcases w with _ | ⟨a, w⟩; · simp at h
  rcases w with _ | ⟨b, w⟩; · simp at h
  rcases w with _ | ⟨c, w⟩; · simp at h
  rcases w with _ | ⟨d, w⟩; · simp at h
  rcases w with _ | ⟨e, w⟩
  · cases a <;> cases b <;> cases c <;> cases d <;> decide
  · simp at h

/-- Witness for C2 at the window with three purchases. -/
theorem c2_segment_mapping_witness :
    segmentOf [true, true, false, true] =
      if [true, true, false, true].count true = 4 then 'A'
      else if [true, true, false, true].count true = 3 then 'B'
      else if [true, true, false, true].count true = 2 then 'C'
      else if [true, true, false, true].count true = 1 then 'D'
      else 'E' :=
  c2_segment_mapping [true, true, false, true] (by decide)

/-- Claim C3: for every window, `gear` equals the window length minus the
count of true flags; for a full length-4 window, gear plus the count of true
flags is 4 and gear is in the range 0 to 4. -/
theorem c3_gear_relation (w : List Bool) :
    gear w = w.length - w.count true ∧
      (w.length = 4 → gear w + w.count true = 4 ∧ gear w ≤ 4) := by
  refine ⟨rfl, fun h => ?_⟩
  have hc : w.count true ≤ w.length := List.count_le_length true w
  unfold gear
  omega

/-- Witness for C3 at a full window with one purchase. -/
theorem c3_gear_relation_witness :
    gear [false, true, false, false] =
        [false, true, false, false].length -
          [false, true, false, false].count true ∧
      gear [false, true, false, false] +
          [false, true, false, false].count true = 4 ∧
        gear [false, true, false, false] ≤ 4 := by
  have h := c3_gear_relation [false, true, false, false]
  exact ⟨h.1, h.2 (by decide)⟩

/-- Claim C5: in any state where a cycle date is already consolidated,
resubmitting any file for that date yields DuplicateCycleError and the
returned state is the submitted state unchanged. -/
theorem c5_duplicate_guard (st : EngineState) (d : Nat)
    (morning evening : List TicketRow)
    (h : (st.ledger d).isSome = true) :
    submit_cycle st d morning evening =
      (.rejected .duplicateCycleError, st) := by
  unfold submit_cycle
  simp [h]

/-- Concrete state with cycle date 3 already consolidated, for the C5
witness. -/
def stDup : EngineState :=
  { registry := fun _ => none
    ledger := fun d => if d = 3 then some false else none }

/-- Witness for C5: resubmitting cycle 3 against `stDup` is rejected. -/
theorem c5_duplicate_guard_witness :
    submit_cycle stDup 3 [] [] = (.rejected .duplicateCycleError, stDup) :=
  c5_duplicate_guard stDup 3 [] [] rfl

/-- Claim C6: `apply_cycle_fact` fails with OutOfOrderCycleError exactly when
the cycle date is not strictly after the player's last processed cycle; on
success it appends the purchase flag to the window, adds the ticket count to
the e-score, applies last-write-wins to names and consent, and sets the last
processed cycle; and a rejected `submit_cycle` aborts the whole cycle,
leaving every player's state (the whole engine state) unchanged. -/
theorem c6_apply_cycle_fact_spec (p : Player) (d : Nat) (f : DailyFact) :
    (apply_cycle_fact p d f = .error .outOfOrderCycleError ↔
        strictlyAfter p.last_processed_cycle d = false) ∧
      (∀ p', apply_cycle_fact p d f = .ok p' →
        p' = { names := f.latest_names
               consent := f.latest_consent
               created_at := p.created_at
               e_score := p.e_score + f.ticket_count
               window := pushWindow p.window f.purchased
               last_processed_cycle := some d }) ∧
      (∀ (st : EngineState) (d' : Nat) (morning evening : List TicketRow)
          (e : CycleError) (st' : EngineState),
        submit_cycle st d' morning evening = (.rejected e, st') → st' = st) := by
  refine ⟨?_, ?_, ?_⟩
  · unfold apply_cycle_fact
    cases hb : strictlyAfter p.last_processed_cycle d <;> simp [hb]
  · intro p' hp'
    unfold apply_cycle_fact at hp'
    cases hb : strictlyAfter p.last_processed_cycle d <;>
      simp [hb] at hp'
    exact hp'.symm
  · intro st d' morning evening e st' hs
    unfold submit_cycle at hs
    split at hs
    · exact congrArg Prod.snd hs |>.symm
    · cases hc : commitAll st.registry d' (factsOf (morning ++ evening)) with
      | error e2 =>
        simp only [hc] at hs
        exact congrArg Prod.snd hs |>.symm
      | ok reg' =>
        simp only [hc] at hs
        exact absurd (congrArg Prod.fst hs) (by simp)

/-- Concrete player for the C6 witness: two cycles of history. -/
def player6 : Player :=
  { names := 1, consent := false, created_at := 9, e_score := 2,
    window := [true, false], last_processed_cycle := some 4 }

/-- Concrete daily fact for the C6 witness. -/
def fact6 : DailyFact :=
  { ticket_count := 3, purchased := true, latest_names := 5,
    latest_consent := true, first_seen := 11 }

/-- Witness for C6: the success clause applied at cycle 7 to `player6`. -/
theorem c6_apply_cycle_fact_spec_witness :
    ({ names := 5, consent := true, created_at := 9, e_score := 5,
       window := [true, false, true],
       last_processed_cycle := some 7 } : Player) =
      { names := fact6.latest_names
        consent := fact6.latest_consent
        created_at := player6.created_at
        e_score := player6.e_score + fact6.ticket_count
        window := pushWindow player6.window fact6.purchased
        last_processed_cycle := some 7 } :=
  (c6_apply_cycle_fact_spec player6 7 fact6).2.1 _ rfl

/-- Claim C9: in the chat interface, an input message that is empty or all
whitespace makes handleSendMessage return at once: the chat service is not
called and the component state, including the conversation, is unchanged. -/
theorem c9_blank_input_no_send (st : ChatState) (svc : ChatServiceResult)
    (h : st.inputMessage = [] ∨ ∀ c ∈ st.inputMessage, c.isWhitespace = true) :
    handleSendMessage st svc = (st, false) := by
  have ht : jsTrim st.inputMessage = [] := by
    rcases h with h | h
    · simp [jsTrim, h]
    · have hd : st.inputMessage.dropWhile Char.isWhitespace = [] :=
        List.dropWhile_eq_nil_iff.mpr h
      simp [jsTrim, hd]
  unfold handleSendMessage
  simp [ht]

/-- Witness for C9 on a whitespace-only input with a pending conversation. -/
theorem c9_blank_input_no_send_witness :
    handleSendMessage
        ⟨[⟨.user, ['h', 'i']⟩], [' ', ' '], false⟩ (.error ()) =
      (⟨[⟨.user, ['h', 'i']⟩], [' ', ' '], false⟩, false) :=
  c9_blank_input_no_send _ _ (Or.inr (by decide))

/-- Claim C10: when the chat service call fails, handleSendMessage appends
exactly one error-typed message after the already-appended user message and
leaves the input field unchanged; the input is cleared only on the success
path. -/
theorem c10_error_append_keeps_input (st : ChatState) (resp : List Char)
    (u : Unit) (hne : jsTrim st.inputMessage ≠ []) :
    (handleSendMessage st (.error u)).1.messages =
        st.messages ++
          [⟨.user, st.inputMessage⟩, ⟨.error, chatErrorText⟩] ∧
      (handleSendMessage st (.error u)).1.inputMessage = st.inputMessage ∧
      (handleSendMessage st (.ok resp)).1.inputMessage = [] := by
  unfold handleSendMessage
  simp [hne]

/-- Witness for C10 on the one-character input "q". -/
theorem c10_error_append_keeps_input_witness :
    (handleSendMessage ⟨[], ['q'], false⟩ (.error ())).1.messages =
        [] ++ [⟨.user, ['q']⟩, ⟨.error, chatErrorText⟩] ∧
      (handleSendMessage ⟨[], ['q'], false⟩ (.error ())).1.inputMessage =
        ['q'] ∧
      (handleSendMessage ⟨[], ['q'], false⟩ (.ok ['o', 'k'])).1.inputMessage =
        [] :=
  c10_error_append_keeps_input ⟨[], ['q'], false⟩ ['o', 'k'] () (by decide)

/-- A point update of the registry leaves every other mobile unchanged. -/
theorem updateReg_ne (reg : Registry) (m : Nat) (p : Player) (m' : Nat)
    (h : m' ≠ m) : updateReg reg m p m' = reg m' := by
  unfold updateReg
  simp [h]

/-- `get_or_create` depends on the registry only at the queried mobile. -/
theorem get_or_create_congr (reg₁ reg₂ : Registry) (m : Nat) (f : DailyFact)
    (h : reg₁ m = reg₂ m) : get_or_create reg₁ m f = get_or_create reg₂ m f := by
  unfold get_or_create
  rw [h]

/-- A successful `apply_cycle_fact` yields exactly the updated record. -/
theorem apply_cycle_fact_ok_eq (p : Player) (d : Nat) (f : DailyFact)
    (p' : Player) (h : apply_cycle_fact p d f = .ok p') :
    p' = { names := f.latest_names
           consent := f.latest_consent
           created_at := p.created_at
           e_score := p.e_score + f.ticket_count
           window := pushWindow p.window f.purchased
           last_processed_cycle := some d } := by
  unfold apply_cycle_fact at h
  cases hb : strictlyAfter p.last_processed_cycle d <;> simp [hb] at h
  exact h.symm

/-- An in-order cycle date makes `apply_cycle_fact` succeed. -/
theorem apply_cycle_fact_ok_of_after (p : Player) (d : Nat) (f : DailyFact)
    (h : strictlyAfter p.last_processed_cycle d = true) :
    apply_cycle_fact p d f =
      .ok { names := f.latest_names
            consent := f.latest_consent
            created_at := p.created_at
            e_score := p.e_score + f.ticket_count
            window := pushWindow p.window f.purchased
            last_processed_cycle := some d } := by
  unfold apply_cycle_fact
  simp [h]

/-- Unfolding equation of `commitAll` on a cons cell. -/
theorem commitAll_cons (reg : Registry) (d : Nat) (m : Nat) (f : DailyFact)
    (rest : List (Nat × DailyFact)) :
    commitAll reg d ((m, f) :: rest) =
      match apply_cycle_fact (get_or_create reg m f) d f with
      | .error e => .error e
      | .ok p => commitAll (updateReg reg m p) d rest := rfl

/-- A successful commit leaves every unaffected mobile's entry unchanged. -/
theorem commitAll_not_mem (d : Nat) (m : Nat) :
    ∀ (facts : List (Nat × DailyFact)) (reg reg' : Registry),
      commitAll reg d facts = .ok reg' →
      m ∉ facts.map Prod.fst → reg' m = reg m := by
  intro facts
  induction facts with
  | nil =>
    intro reg reg' h _
    unfold commitAll at h
    cases h
    rfl
  | cons mf rest ih =>
    intro reg reg' h hm
    obtain ⟨m₀, f₀⟩ := mf
    rw [commitAll_cons] at h
    cases ha : apply_cycle_fact (get_or_create reg m₀ f₀) d f₀ with
    | error e => rw [ha] at h; cases h
    | ok p =>
      rw [ha] at h
      have hne : m ≠ m₀ := by
        intro hEq
        exact hm (by simp [hEq])
      have hm' : m ∉ rest.map Prod.fst := by
        intro hIn
        exact hm (by simp [hIn])
      rw [ih _ _ h hm', updateReg_ne _ _ _ _ hne]

/-- A successful commit applies each listed fact to the player fetched from
the original registry, provided the affected mobiles are distinct. -/
theorem commitAll_mem (d : Nat) (m : Nat) (f : DailyFact) :
    ∀ (facts : List (Nat × DailyFact)) (reg reg' : Registry),
      commitAll reg d facts = .ok reg' →
      (facts.map Prod.fst).Nodup →
      (m, f) ∈ facts →
      ∃ p', apply_cycle_fact (get_or_create reg m f) d f = .ok p' ∧
        reg' m = some p' := by
  intro facts
  induction facts with
  | nil => intro reg reg' _ _ hin; cases hin
  | cons mf rest ih =>
    intro reg reg' h hnd hin
    obtain ⟨m₀, f₀⟩ := mf
    rw [List.map_cons] at hnd
    have hnd1 : m₀ ∉ rest.map Prod.fst := (List.nodup_cons.mp hnd).1
    have hnd2 : (rest.map Prod.fst).Nodup := (List.nodup_cons.mp hnd).2
    rw [commitAll_cons] at h
    cases ha : apply_cycle_fact (get_or_create reg m₀ f₀) d f₀ with
    | error e => rw [ha] at h; cases h
    | ok p =>
      rw [ha] at h
      rcases List.mem_cons.mp hin with hEq | hTail
      · have hm : m = m₀ := congrArg Prod.fst hEq
        have hf : f = f₀ := congrArg Prod.snd hEq
        subst hm; subst hf
        refine ⟨p, ha, ?_⟩
        rw [commitAll_not_mem d m rest _ _ h hnd1]
        unfold updateReg
        simp
      · have hne : m ≠ m₀ := by
          intro hEq
          subst hEq
          exact hnd1 (List.mem_map_of_mem Prod.fst hTail)
        obtain ⟨p', hp', hr⟩ := ih _ _ h hnd2 hTail
        refine ⟨p', ?_, hr⟩
        rw [get_or_create_congr (updateReg reg m₀ p) reg m f
          (updateReg_ne reg m₀ p m hne)] at hp'
        exact hp'

/-- The keys of one cycle's fact list are exactly the affected mobiles. -/
theorem factsOf_keys (rows : List TicketRow) :
    (factsOf rows).map Prod.fst = mobilesOf rows := by
  unfold factsOf
  rw [List.map_map]
  apply List.map_id''
  intro x
  rfl

/-- The keys of one cycle's fact list contain no duplicate mobile. -/
theorem factsOf_keys_nodup (rows : List TicketRow) :
    ((factsOf rows).map Prod.fst).Nodup := by
  rw [factsOf_keys]
  exact List.nodup_dedup _

/-- A mobile outside the affected set has no row and hence a zero ticket
sum for the cycle. -/
theorem ticketSum_not_mem (rows : List TicketRow) (m : Nat)
    (h : m ∉ mobilesOf rows) : ticketSum rows m = 0 := by
  have hnil : rowsFor rows m = [] := by
    unfold rowsFor
    rw [List.filter_eq_nil_iff]
    intro r hr hbeq
    exact h (by
      unfold mobilesOf
      rw [List.mem_dedup]
      exact List.mem_map.mpr ⟨r, hr, by simpa using hbeq⟩)
  unfold ticketSum
  rw [hnil]
  rfl

/-- The fact of an affected mobile is listed in the cycle's fact list. -/
theorem factsOf_mem (rows : List TicketRow) (m : Nat)
    (h : m ∈ mobilesOf rows) :
    (m, aggregateFact rows m) ∈ factsOf rows :=
  List.mem_map_of_mem (fun m => (m, aggregateFact rows m)) h

/-- Claim C1: whenever a cycle is consolidated, every pre-existing player's
e-score grows by exactly the sum of ticket quantities attributed to that
player in the cycle's rows across both sessions; and over any `submit_cycle`
call, consolidated or rejected, a player's e-score never decreases. -/
theorem c1_escore_accumulates (st : EngineState) (d : Nat)
    (morning evening : List TicketRow) (m : Nat) (p p' : Player)
    (hp : st.registry m = some p)
    (hp' : (submit_cycle st d morning evening).2.registry m = some p') :
    (∀ v st', submit_cycle st d morning evening = (.consolidated v, st') →
        p'.e_score = p.e_score + ticketSum (morning ++ evening) m) ∧
      p.e_score ≤ p'.e_score := by
  by_cases hdup : (st.ledger d).isSome
  · have hsub : submit_cycle st d morning evening =
        (.rejected .duplicateCycleError, st) := by
      unfold submit_cycle
      simp [hdup]
    rw [hsub] at hp'
    have hpp : p' = p := by
      rw [hp] at hp'
      exact (Option.some_inj.mp hp').symm
    subst hpp
    exact ⟨fun v st' hv => absurd (hsub.symm.trans hv) (by simp),
      Nat.le_refl _⟩
  · cases hc : commitAll st.registry d (factsOf (morning ++ evening)) with
    | error e =>
      have hsub : submit_cycle st d morning evening = (.rejected e, st) := by
        unfold submit_cycle
        simp [hdup, hc]
      rw [hsub] at hp'
      have hpp : p' = p := by
        rw [hp] at hp'
        exact (Option.some_inj.mp hp').symm
      subst hpp
      exact ⟨fun v st' hv => absurd (hsub.symm.trans hv) (by simp),
        Nat.le_refl _⟩
    | ok reg' =>
      have hsub : submit_cycle st d morning evening =
          (.consolidated d,
           { registry := reg'
             ledger := fun d' =>
               if d' = d then some (morning.isEmpty || evening.isEmpty)
               else st.ledger d' }) := by
        unfold submit_cycle
        simp [hdup, hc]
      have hp2 : reg' m = some p' := by
        rw [hsub] at hp'
        exact hp'
      have hescore : p'.e_score = p.e_score + ticketSum (morning ++ evening) m := by
        by_cases hm : m ∈ mobilesOf (morning ++ evening)
        · obtain ⟨q, hq, hqm⟩ := commitAll_mem d m
            (aggregateFact (morning ++ evening) m) _ _ _ hc
            (factsOf_keys_nodup _) (factsOf_mem _ _ hm)
          have hgoc : get_or_create st.registry m
              (aggregateFact (morning ++ evening) m) = p := by
            unfold get_or_create
            rw [hp]
          rw [hgoc] at hq
          have hrec := apply_cycle_fact_ok_eq _ _ _ _ hq
          have hpq : p' = q := by
            rw [hqm] at hp2
            exact (Option.some_inj.mp hp2).symm
          rw [hpq, hrec]
          rfl
        · have hunch : reg' m = st.registry m := by
            refine commitAll_not_mem d m _ _ _ hc ?_
            rw [factsOf_keys]
            exact hm
          have hpp : p' = p := by
            rw [hunch, hp] at hp2
            exact (Option.some_inj.mp hp2).symm
          rw [hpp, ticketSum_not_mem _ _ hm]
          exact (Nat.add_zero _).symm
      exact ⟨fun v st' _ => hescore, hescore ▸ Nat.le_add_right _ _⟩


/-- Concrete player for the C1 witness: e-score 4 after cycle 0. -/
def playerC1 : Player :=
  { names := 1, consent := false, created_at := 0, e_score := 4,
    window := [true], last_processed_cycle := some 0 }

/-- Concrete ticket row for the C1 witness: 2 tickets for mobile 7. -/
def rowC1 : TicketRow :=
  { names := 5, mobile := 7, consent := true, first_seen := 10,
    ticket_count := 2, session := .morning, cycle_date := 1 }

/-- Concrete engine state for the C1 witness. -/
def stC1 : EngineState :=
  { registry := fun m => if m = 7 then some playerC1 else none
    ledger := fun _ => none }

/-- The player record after the C1 witness cycle commits. -/
def playerC1' : Player :=
  { names := 5, consent := true, created_at := 0, e_score := 6,
    window := [true, true], last_processed_cycle := some 1 }

/-- Witness for C1: submitting cycle 1 with one 2-ticket row raises the
e-score of mobile 7 from 4 to 6. -/
theorem c1_escore_accumulates_witness :
    playerC1'.e_score = playerC1.e_score + ticketSum [rowC1] 7 ∧
      playerC1.e_score ≤ playerC1'.e_score := by
  have h := c1_escore_accumulates stC1 1 [rowC1] [] 7 playerC1 playerC1'
    rfl (by decide)
  exact ⟨h.1 1 (submit_cycle stC1 1 [rowC1] []).2 rfl, h.2⟩

/-- Pushing onto a window of at most 4 flags keeps it at most 4 flags. -/
theorem pushWindow_length_le (w : List Bool) (b : Bool) (h : w.length ≤ 4) :
    (pushWindow w b).length ≤ 4 := by
  unfold pushWindow
  split <;> simp <;> omega

/-- The window grows by one flag per push until it holds 4, then stays at 4. -/
theorem pushWindow_length_eq (w : List Bool) (b : Bool) (h : w.length ≤ 4) :
    (pushWindow w b).length = min (w.length + 1) 4 := by
  unfold pushWindow
  split <;> simp <;> omega

/-- A successful commit keeps every window at 4 flags or fewer. -/
theorem commitAll_window_le (d : Nat) :
    ∀ (facts : List (Nat × DailyFact)) (reg reg' : Registry),
      commitAll reg d facts = .ok reg' →
      (∀ m p, reg m = some p → p.window.length ≤ 4) →
      ∀ m p, reg' m = some p → p.window.length ≤ 4 := by
  intro facts
  induction facts with
  | nil =>
    intro reg reg' h hinv
    unfold commitAll at h
    cases h
    exact hinv
  | cons mf rest ih =>
    intro reg reg' h hinv
    obtain ⟨m₀, f₀⟩ := mf
    rw [commitAll_cons] at h
    cases ha : apply_cycle_fact (get_or_create reg m₀ f₀) d f₀ with
    | error e => rw [ha] at h; cases h
    | ok q =>
      rw [ha] at h
      refine ih _ _ h ?_
      intro m p hp
      by_cases hm : m = m₀
      · subst hm
        have hq : updateReg reg m q m = some q := by
          unfold updateReg
          simp
        have hpq : p = q := by
          rw [hq] at hp
          exact (Option.some_inj.mp hp).symm
        have hbase : (get_or_create reg m f₀).window.length ≤ 4 := by
          unfold get_or_create
          cases hr : reg m with
          | some p₀ => exact hinv m p₀ hr
          | none => simp
        have hqw : q.window = pushWindow (get_or_create reg m f₀).window
            f₀.purchased := by
          rw [apply_cycle_fact_ok_eq _ _ _ _ ha]
        rw [hpq, hqw]
        exact pushWindow_length_le _ _ hbase
      · rw [updateReg_ne _ _ _ _ hm] at hp
        exact hinv m p hp

/-- One `submit_cycle` call keeps every window at 4 flags or fewer. -/
theorem submit_window_le (st : EngineState) (d : Nat)
    (morning evening : List TicketRow)
    (hinv : ∀ m p, st.registry m = some p → p.window.length ≤ 4) :
    ∀ m p, (submit_cycle st d morning evening).2.registry m = some p →
      p.window.length ≤ 4 := by
  by_cases hdup : (st.ledger d).isSome
  · have hsub : submit_cycle st d morning evening =
        (.rejected .duplicateCycleError, st) := by
      unfold submit_cycle
      simp [hdup]
    rw [hsub]
    exact hinv
  · cases hc : commitAll st.registry d (factsOf (morning ++ evening)) with
    | error e =>
      have hsub : submit_cycle st d morning evening = (.rejected e, st) := by
        unfold submit_cycle
        simp [hdup, hc]
      rw [hsub]
      exact hinv
    | ok reg' =>
      have hsub : submit_cycle st d morning evening =
          (.consolidated d,
           { registry := reg'
             ledger := fun d' =>
               if d' = d then some (morning.isEmpty || evening.isEmpty)
               else st.ledger d' }) := by
        unfold submit_cycle
        simp [hdup, hc]
      rw [hsub]
      intro m p hp
      exact commitAll_window_le d _ _ _ hc hinv m p hp

/-- Every reachable engine state keeps every window at 4 flags or fewer. -/
theorem reachable_window_le (st : EngineState) (h : Reachable st) :
    ∀ m p, st.registry m = some p → p.window.length ≤ 4 := by
  induction h with
  | init =>
    intro m p hp
    simp [emptyState] at hp
  | step st d morning evening _ ih =>
    exact submit_window_le st d morning evening ih

/-- Across a run of successful cycle applications, the window length is the
number of processed cycles capped at 4. -/
theorem applyAll_window_length :
    ∀ (l : List (Nat × DailyFact)) (p p' : Player),
      p.window.length ≤ 4 → applyAll p l = .ok p' →
      p'.window.length = min (p.window.length + l.length) 4 := by
  intro l
  induction l with
  | nil =>
    intro p p' hle h
    unfold applyAll at h
    cases h
    simp
    omega
  | cons df rest ih =>
    intro p p' hle h
    obtain ⟨d, f⟩ := df
    unfold applyAll at h
    cases ha : apply_cycle_fact p d f with
    | error e => rw [ha] at h; cases h
    | ok q =>
      rw [ha] at h
      have hqw : q.window = pushWindow p.window f.purchased := by
        rw [apply_cycle_fact_ok_eq _ _ _ _ ha]
      have hql : q.window.length = min (p.window.length + 1) 4 := by
        rw [hqw]
        exact pushWindow_length_eq _ _ hle
      have hrec := ih q p' (by omega) h
      rw [hrec, hql]
      simp
      omega

/-- Claim C4: every reachable state keeps every player's window at length at
most 4; a player starting from an empty window who has had k cycles
processed has window length `min k 4`, hence exactly 4 once at least 4
cycles are processed; pushing onto a full window evicts the oldest flag
(FIFO); and after 5 consecutive cycles the first cycle's purchase flag no
longer influences the segment or the gear. -/
theorem c4_window_invariants :
    (∀ st, Reachable st → ∀ m p, st.registry m = some p →
        p.window.length ≤ 4) ∧
      (∀ (p : Player) (l : List (Nat × DailyFact)) (p' : Player),
        p.window = [] → applyAll p l = .ok p' →
        p'.window.length = min l.length 4) ∧
      (∀ (w : List Bool) (b : Bool), w.length = 4 →
        pushWindow w b = w.drop 1 ++ [b]) ∧
      (∀ f1 g1 f2 f3 f4 f5 : Bool,
        segmentOf (List.foldl pushWindow [] [f1, f2, f3, f4, f5]) =
            segmentOf (List.foldl pushWindow [] [g1, f2, f3, f4, f5]) ∧
          gear (List.foldl pushWindow [] [f1, f2, f3, f4, f5]) =
            gear (List.foldl pushWindow [] [g1, f2, f3, f4, f5])) := by
  refine ⟨reachable_window_le, ?_, ?_, by decide⟩
  · intro p l p' hw h
    have hlen := applyAll_window_length l p p' (by rw [hw]; simp) h
    rw [hw] at hlen
    simpa using hlen
  · intro w b h
    unfold pushWindow
    rw [if_neg (by omega)]

/-- Fresh player for the C4 witness. -/
def playerFresh : Player :=
  { names := 0, consent := false, created_at := 0, e_score := 0,
    window := [], last_processed_cycle := none }

/-- Daily fact for the C4 witness. -/
def factC4 : DailyFact :=
  { ticket_count := 1, purchased := true, latest_names := 0,
    latest_consent := false, first_seen := 0 }

/-- Player after one cycle, for the C4 witness. -/
def playerFresh' : Player :=
  { names := 0, consent := false, created_at := 0, e_score := 1,
    window := [true], last_processed_cycle := some 1 }

/-- Witness for C4: one processed cycle gives window length `min 1 4`, and a
push onto a full window drops the oldest flag. -/
theorem c4_window_invariants_witness :
    playerFresh'.window.length =
        min ([(1, factC4)] : List (Nat × DailyFact)).length 4 ∧
      pushWindow [true, true, false, true] false =
        [true, true, false, true].drop 1 ++ [false] := by
  refine ⟨?_, c4_window_invariants.2.2.1 _ false (by decide)⟩
  exact c4_window_invariants.2.1 playerFresh [(1, factC4)] playerFresh'
    rfl rfl

/-- A fold of `max` over a list of naturals is permutation invariant. -/
theorem foldr_max_perm {l₁ l₂ : List Nat} (h : l₁.Perm l₂) :
    l₁.foldr max 0 = l₂.foldr max 0 := by
  induction h with
  | nil => rfl
  | cons x _ ih => simp [List.foldr_cons, ih]
  | swap x y l =>
    simp only [List.foldr_cons]
    rw [← max_assoc, max_comm y x, max_assoc]
  | trans _ _ ih₁ ih₂ => exact ih₁.trans ih₂

/-- Claim C7: the Aggregator is a pure reduction with no ordering dependency:
two row sequences that are permutations of each other produce the same
per-mobile fact map; and every produced fact has `purchased` exactly when its
ticket count is positive. -/
theorem c7_aggregate_pure (rows₁ rows₂ : List TicketRow)
    (h : rows₁.Perm rows₂) :
    (∀ m, aggregate rows₁ m = aggregate rows₂ m) ∧
      (∀ (rows : List TicketRow) (m : Nat) (f : DailyFact),
        aggregate rows m = some f → (f.purchased = true ↔ 0 < f.ticket_count)) := by
  constructor
  · intro m
    have hflt : (rowsFor rows₁ m).Perm (rowsFor rows₂ m) := h.filter _
    have hts : ticketSum rows₁ m = ticketSum rows₂ m := by
      unfold ticketSum
      exact (hflt.map _).sum_eq
    have hst : latestStamp rows₁ m = latestStamp rows₂ m := by
      unfold latestStamp
      exact foldr_max_perm (hflt.map _)
    have hpl : latestPayload rows₁ m = latestPayload rows₂ m := by
      unfold latestPayload
      rw [hst]
      exact foldr_max_perm ((hflt.filter _).map _)
    have hnil : rowsFor rows₁ m = [] ↔ rowsFor rows₂ m = [] := by
      rw [← List.length_eq_zero, ← List.length_eq_zero, hflt.length_eq]
    unfold aggregate aggregateFact
    by_cases h1 : rowsFor rows₁ m = []
    · rw [if_pos h1, if_pos (hnil.mp h1)]
    · rw [if_neg h1, if_neg (fun h2 => h1 (hnil.mpr h2)), hts, hst, hpl]
  · intro rows m f hf
    unfold aggregate at hf
    by_cases h1 : rowsFor rows m = []
    · rw [if_pos h1] at hf
      cases hf
    · rw [if_neg h1] at hf
      have hfe : f = aggregateFact rows m := (Option.some_inj.mp hf).symm
      subst hfe
      unfold aggregateFact
      simp only [bne_iff_ne, ne_eq]
      omega

/-- First concrete row for the C7 witness. -/
def rowA : TicketRow :=
  { names := 1, mobile := 7, consent := true, first_seen := 3,
    ticket_count := 2, session := .morning, cycle_date := 1 }

/-- Second concrete row for the C7 witness. -/
def rowB : TicketRow :=
  { names := 2, mobile := 7, consent := false, first_seen := 5,
    ticket_count := 1, session := .evening, cycle_date := 1 }

/-- Witness for C7: swapping two rows of mobile 7 leaves its fact unchanged. -/
theorem c7_aggregate_pure_witness :
    aggregate [rowA, rowB] 7 = aggregate [rowB, rowA] 7 :=
  (c7_aggregate_pure [rowA, rowB] [rowB, rowA] (by decide)).1 7

/-- The commit succeeds whenever every affected player is in order for the
cycle date and the affected mobiles are distinct. -/
theorem commitAll_total (d : Nat) :
    ∀ (facts : List (Nat × DailyFact)) (reg : Registry),
      (facts.map Prod.fst).Nodup →
      (∀ mf ∈ facts,
        strictlyAfter (get_or_create reg mf.1 mf.2).last_processed_cycle d =
          true) →
      ∃ reg', commitAll reg d facts = .ok reg' := by
  intro facts
  induction facts with
  | nil => intro reg _ _; exact ⟨reg, rfl⟩
  | cons mf rest ih =>
    intro reg hnd hall
    obtain ⟨m₀, f₀⟩ := mf
    rw [List.map_cons] at hnd
    have hnd1 : m₀ ∉ rest.map Prod.fst := (List.nodup_cons.mp hnd).1
    have hnd2 : (rest.map Prod.fst).Nodup := (List.nodup_cons.mp hnd).2
    have h1 := hall (m₀, f₀) (List.mem_cons_self _ _)
    have ha := apply_cycle_fact_ok_of_after (get_or_create reg m₀ f₀) d f₀ h1
    rw [commitAll_cons, ha]
    apply ih
    · exact hnd2
    · intro mf' hmf'
      have hne : mf'.1 ≠ m₀ := by
        intro hEq
        exact hnd1 (hEq ▸ List.mem_map_of_mem Prod.fst hmf')
      rw [get_or_create_congr _ reg mf'.1 mf'.2 (updateReg_ne _ _ _ _ hne)]
      exact hall mf' (List.mem_cons_of_mem _ hmf')

/-- Claim C8: a cycle in which exactly one session has zero rows, submitted
against a state where the date is new and every stored player is in order,
is still consolidated rather than rejected; the cycle is marked with the
session-gap flag in its ledger metadata, and the missing session contributes
nothing: the per-mobile facts equal those of the nonempty session alone. -/
theorem c8_session_gap_processed (st : EngineState) (d : Nat)
    (morning evening : List TicketRow)
    (hdup : st.ledger d = none)
    (hord : ∀ m p, st.registry m = some p →
      strictlyAfter p.last_processed_cycle d = true)
    (hone : (morning = [] ∧ evening ≠ []) ∨ (evening = [] ∧ morning ≠ [])) :
    (submit_cycle st d morning evening).1 = .consolidated d ∧
      (submit_cycle st d morning evening).2.ledger d = some true ∧
      ∀ m, aggregate (morning ++ evening) m =
        aggregate (if morning.isEmpty then evening else morning) m := by
  have hcond : ∀ mf ∈ factsOf (morning ++ evening),
      strictlyAfter
        (get_or_create st.registry mf.1 mf.2).last_processed_cycle d =
        true := by
    intro mf _
    unfold get_or_create
    cases hr : st.registry mf.1 with
    | some p => exact hord _ p hr
    | none => rfl
  obtain ⟨reg', hc⟩ := commitAll_total d (factsOf (morning ++ evening))
    st.registry (factsOf_keys_nodup _) hcond
  have hdup' : (st.ledger d).isSome = false := by
    rw [hdup]
    rfl
  have hflag : (morning.isEmpty || evening.isEmpty) = true := by
    rcases hone with ⟨h1, _⟩ | ⟨h1, _⟩ <;> simp [h1]
  have hsub : submit_cycle st d morning evening =
      (.consolidated d,
       { registry := reg'
         ledger := fun d' =>
           if d' = d then some (morning.isEmpty || evening.isEmpty)
           else st.ledger d' }) := by
    unfold submit_cycle
    simp [hdup', hc]
  refine ⟨by rw [hsub], ?_, ?_⟩
  · rw [hsub]
    simp [hflag]
  · intro m
    rcases hone with ⟨h1, _⟩ | ⟨h1, h2⟩
    · subst h1
      simp
    · subst h1
      have hne : morning.isEmpty = false := by
        cases morning with
        | nil => exact absurd rfl h2
        | cons a l => rfl
      simp [hne]

/-- Concrete evening row for the C8 witness. -/
def rowC8 : TicketRow :=
  { names := 3, mobile := 9, consent := true, first_seen := 2,
    ticket_count := 3, session := .evening, cycle_date := 1 }

/-- Witness for C8: a cycle with an empty morning session and one evening
row consolidates and is flagged in the ledger. -/
theorem c8_session_gap_processed_witness :
    (submit_cycle emptyState 1 [] [rowC8]).1 = .consolidated 1 ∧
      (submit_cycle emptyState 1 [] [rowC8]).2.ledger 1 = some true := by
  have h := c8_session_gap_processed emptyState 1 [] [rowC8] rfl
    (fun m p hp => by simp [emptyState] at hp)
    (Or.inl ⟨rfl, by decide⟩)
  exact ⟨h.1, h.2.1⟩
